import Mathlib

/-!
Verification of the CreoVex stroke-smoothing engine (src/engine/src/lib.rs).

The Rust module exposes, across a wasm FFI boundary:
  * smooth_stroke(points_ptr, points_len): validate, run two iterations of
    Chaikin corner-cutting subdivision, serialize the result to a wire buffer;
  * serialize_points: wire buffer = 4-byte little-endian u32 point count,
    then the f32 scalars, each as 4 little-endian bytes;
  * alloc / free_buffer: raw Vec-backed allocation handed to the caller.

Modelling choices of the shallow embedding:
  * f32 scalars are modelled as exact rationals for the arithmetic layer
    (the algorithm only copies scalars or forms 0.75/0.25 combinations;
    endpoint copies are verbatim moves, so equalities proved here about
    copied scalars correspond to bit-for-bit equalities in the code);
  * for the byte-level wire-format layer, an f32 value is identified with
    its 32-bit IEEE-754 bit pattern, a natural number below 2 ^ 32, since
    Rust to_le_bytes on an f32 emits exactly the little-endian bytes of
    that pattern, and the serializer never does arithmetic on scalars;
  * pointers are addresses in ℕ with 0 the null pointer; a slice received
    through the FFI is the list of scalars it denotes, plus a flag telling
    whether the incoming pointer was null.
-/

namespace CreoVex

/-- The six scalars pushed by the loop body of chaikin_subdivide for one
segment: the quarter point q and the three-quarter point r, each with
x, y and pressure interpolated at the same 0.75 / 0.25 ratios. -/
def chaikinSegment (x0 y0 p0 x1 y1 p1 : ℚ) : List ℚ :=
  [0.75 * x0 + 0.25 * x1, 0.75 * y0 + 0.25 * y1, 0.75 * p0 + 0.25 * p1,
   0.25 * x0 + 0.75 * x1, 0.25 * y0 + 0.75 * y1, 0.25 * p0 + 0.75 * p1]

/-- One iteration of the loop inside chaikin_subdivide: keep the first
triplet current[0..3], emit the two interpolated samples of every
consecutive segment i = 0 .. current.len()/3 - 2, keep the last triplet
current[len-3..len]. -/
def chaikinOnce (current : List ℚ) : List ℚ :=
  current.take 3
    ++ (List.range (current.length / 3 - 1)).flatMap (fun i =>
        chaikinSegment (current.getD (i * 3) 0) (current.getD (i * 3 + 1) 0)
          (current.getD (i * 3 + 2) 0) (current.getD ((i + 1) * 3) 0)
          (current.getD ((i + 1) * 3 + 1) 0) (current.getD ((i + 1) * 3 + 2) 0))
    ++ current.drop (current.length - 3)

/-- chaikin_subdivide(points, iterations): repeat chaikinOnce, but break out
of the loop as soon as the working sequence holds fewer than 6 scalars
(fewer than 2 samples). -/
def chaikin_subdivide (points : List ℚ) : ℕ → List ℚ
  | 0 => points
  | k + 1 => if points.length < 6 then points else chaikin_subdivide (chaikinOnce points) k

/-- True exactly when the defensive break branch at the top of the loop of
chaikin_subdivide fires during one of the requested iterations. -/
def chaikinHitsBreak (points : List ℚ) : ℕ → Bool
  | 0 => false
  | k + 1 => if points.length < 6 then true else chaikinHitsBreak (chaikinOnce points) k

/-- The wire buffer at the value level: the u32 header written by
serialize_points and the scalar payload, before byte encoding. -/
structure WireBuffer where
  point_count : ℕ
  payload : List ℚ
deriving DecidableEq, Repr

/-- serialize_points at the value level: the header is the sample count
points.len() / 3 cast to u32, the payload is the scalar sequence itself. -/
def serializeVal (points : List ℚ) : WireBuffer :=
  ⟨points.length / 3 % 2 ^ 32, points⟩

/-- smooth_stroke(points_ptr, points_len): reject a null pointer, a zero
length, or a length not a multiple of 3, with the null sentinel (none);
with fewer than 6 scalars serialize the input unchanged; otherwise run two
iterations of Chaikin subdivision and serialize the result. -/
def smooth_stroke (ptrIsNull : Bool) (points : List ℚ) : Option WireBuffer :=
  if ptrIsNull = true ∨ points.length = 0 ∨ points.length % 3 ≠ 0 then none
  else if points.length < 6 then some (serializeVal points)
  else some (serializeVal (chaikin_subdivide points 2))

/-- The four little-endian bytes of a 32-bit unsigned value, as written by
u32 to_le_bytes. -/
def u32ToLeBytes (n : ℕ) : List ℕ :=
  [n % 256, n / 256 % 256, n / 65536 % 256, n / 16777216 % 256]

/-- f32 to_le_bytes: the little-endian bytes of the 32-bit IEEE-754 bit
pattern of the value (an f32 value is identified with its bit pattern). -/
def f32ToLeBytes (bits : ℕ) : List ℕ :=
  u32ToLeBytes bits

/-- serialize_points at the byte level, over scalars given as 32-bit IEEE
bit patterns: the 4-byte little-endian u32 sample count, then every scalar
as 4 little-endian bytes, in sequence order. -/
def serialize_points (points : List ℕ) : List ℕ :=
  u32ToLeBytes (points.length / 3 % 2 ^ 32) ++ points.flatMap f32ToLeBytes

/-- Reading back a little-endian u32 from the first four bytes of a wire
buffer. -/
def leBytesToU32 (bytes : List ℕ) : ℕ :=
  bytes.getD 0 0 + 256 * bytes.getD 1 0 + 65536 * bytes.getD 2 0
    + 16777216 * bytes.getD 3 0

/-- Reading back the scalar bit patterns from the payload of a wire buffer,
four little-endian bytes at a time. -/
def decodeScalars : List ℕ → List ℕ
  | b0 :: b1 :: b2 :: b3 :: rest =>
      (b0 + 256 * b1 + 65536 * b2 + 16777216 * b3) :: decodeScalars rest
  | _ => []

/-- Decoding a wire buffer: the u32 count header from the first 4 bytes,
then the scalar sequence from the remaining bytes. -/
def decodeWire (bytes : List ℕ) : ℕ × List ℕ :=
  (leBytesToU32 (bytes.take 4), decodeScalars (bytes.drop 4))

/-- Vec::<u8>::with_capacity(size).as_mut_ptr(), addresses in ℕ with null
at 0; modelled from the documented Rust Vec semantics (that code is not in
this repository): capacity 0 performs no allocation and the pointer is the
dangling pointer, whose address is the alignment of u8, namely 1; a
positive capacity yields the global allocator address for that size, and
the allocator never returns null (allocation failure aborts). The
allocator is abstracted as the function allocAddr. -/
def vecWithCapacityPtr (allocAddr : ℕ → ℕ) (size : ℕ) : ℕ :=
  if size = 0 then 1 else allocAddr size

/-- alloc(size): build Vec::with_capacity(size), leak it, return its raw
pointer; there is no branch returning the null sentinel. -/
def alloc (allocAddr : ℕ → ℕ) (size : ℕ) : ℕ :=
  vecWithCapacityPtr allocAddr size

/-! Helper lemmas about lengths of one subdivision pass. -/

lemma chaikinSegment_length (x0 y0 p0 x1 y1 p1 : ℚ) :
    (chaikinSegment x0 y0 p0 x1 y1 p1).length = 6 := rfl

lemma flatMap_range_length (f : ℕ → List ℚ) (h : ∀ i, (f i).length = 6) :
    ∀ k, ((List.range k).flatMap f).length = 6 * k := by
  intro k
  induction k with
  | zero => rfl
  | succ k ih =>
      rw [List.range_succ, List.flatMap_append, List.length_append, ih]
      simp [h k]
      omega

lemma chaikinOnce_length (pts : List ℚ) (h : 6 ≤ pts.length) :
    (chaikinOnce pts).length = 6 * (pts.length / 3) := by
  unfold chaikinOnce
  rw [List.length_append, List.length_append,
    flatMap_range_length _ (fun i => chaikinSegment_length _ _ _ _ _ _)]
  rw [List.length_take, List.length_drop]
  have hmin : 3 ⊓ pts.length = 3 := Nat.min_eq_left (by omega)
  rw [hmin]
  omega

lemma chaikinOnce_ge6 (pts : List ℚ) (h : 6 ≤ pts.length) :
    6 ≤ (chaikinOnce pts).length := by
  rw [chaikinOnce_length pts h]
  omega

/-- C9: for a starting sequence of at least 2 samples (6 scalars) the
defensive break branch inside chaikin_subdivide never fires, whatever the
iteration count; equivalently it is reachable only from a start of fewer
than 2 samples. -/
theorem C9_break_unreachable (iters : ℕ) :
    ∀ pts : List ℚ, 6 ≤ pts.length → chaikinHitsBreak pts iters = false := by
  induction iters with
  | zero => intro pts _; rfl
  | succ k ih =>
      intro pts h
      unfold chaikinHitsBreak
      rw [if_neg (by omega)]
      exact ih (chaikinOnce pts) (chaikinOnce_ge6 pts h)

/-- Witness for C9 at the concrete two-sample input [0,0,0,1,1,1] with the
production iteration count 2. -/
theorem C9_break_unreachable_witness :
    chaikinHitsBreak [0, 0, 0, 1, 1, 1] 2 = false :=
  C9_break_unreachable 2 [0, 0, 0, 1, 1, 1] (by simp)

/-- C4: smooth_stroke answers the null sentinel exactly on malformed input:
a null pointer, a zero scalar count, or a count that is not a multiple
of 3; every well-formed input yields a buffer, and the rejection branch
builds no buffer at all. -/
theorem C4_null_iff_malformed (b : Bool) (pts : List ℚ) :
    smooth_stroke b pts = none ↔
      b = true ∨ pts.length = 0 ∨ pts.length % 3 ≠ 0 := by
  unfold smooth_stroke
  split_ifs with h h2
  · exact iff_of_true rfl h
  · exact iff_of_false (by simp) h
  · exact iff_of_false (by simp) h

/-- C5: a well-formed input of fewer than 2 samples has exactly 3 scalars,
and smooth_stroke passes it through unchanged: header 1, payload equal to
the input scalars in order. -/
theorem C5_identity_small (pts : List ℚ) (h0 : pts.length ≠ 0)
    (h3 : pts.length % 3 = 0) (hlt : pts.length < 6) :
    pts.length = 3 ∧ smooth_stroke false pts = some ⟨1, pts⟩ := by
  have hlen : pts.length = 3 := by omega
  refine ⟨hlen, ?_⟩
  simp [smooth_stroke, serializeVal, hlen]

/-- Witness for C5 at the one-sample input [1,2,3]. -/
theorem C5_identity_small_witness :
    List.length ([1, 2, 3] : List ℚ) = 3 ∧
      smooth_stroke false [1, 2, 3] = some ⟨1, [1, 2, 3]⟩ :=
  C5_identity_small [1, 2, 3] (by simp) (by simp) (by simp)

lemma chaikin_succ (pts : List ℚ) (k : ℕ) :
    chaikin_subdivide pts (k + 1) =
      if pts.length < 6 then pts else chaikin_subdivide (chaikinOnce pts) k := rfl

lemma chaikin_two (pts : List ℚ) (h : 6 ≤ pts.length) :
    chaikin_subdivide pts 2 = chaikinOnce (chaikinOnce pts) := by
  have h2 := chaikinOnce_ge6 pts h
  calc chaikin_subdivide pts 2
      = if pts.length < 6 then pts else chaikin_subdivide (chaikinOnce pts) 1 :=
        chaikin_succ pts 1
    _ = chaikin_subdivide (chaikinOnce pts) 1 := if_neg (by omega)
    _ = if (chaikinOnce pts).length < 6 then chaikinOnce pts
          else chaikin_subdivide (chaikinOnce (chaikinOnce pts)) 0 :=
        chaikin_succ (chaikinOnce pts) 0
    _ = chaikin_subdivide (chaikinOnce (chaikinOnce pts)) 0 := if_neg (by omega)
    _ = chaikinOnce (chaikinOnce pts) := rfl

lemma smooth_valid_not_rejected (pts : List ℚ) (h3 : pts.length % 3 = 0)
    (h0 : pts.length ≠ 0) :
    ¬(false = true ∨ pts.length = 0 ∨ pts.length % 3 ≠ 0) := by
  push_neg
  exact ⟨by simp, h0, h3⟩

/-- C1: on any well-formed input of n samples with n at least 2, the buffer
returned by smooth_stroke carries point count 4 * n (provided 4 * n fits a
u32, which the wasm32 address space forces anyway), and each single
subdivision pass doubles the sample count: one pass takes 3 * n scalars to
3 * (2 * n) scalars, two passes to 3 * (4 * n). -/
theorem C1_growth_law (pts : List ℚ) (n : ℕ) (hlen : pts.length = 3 * n)
    (hn : 2 ≤ n) (hfit : 4 * n < 2 ^ 32) :
    smooth_stroke false pts = some ⟨4 * n, chaikin_subdivide pts 2⟩ ∧
      (chaikin_subdivide pts 2).length = 3 * (4 * n) ∧
      (chaikinOnce pts).length = 3 * (2 * n) := by
  have h6 : 6 ≤ pts.length := by omega
  have h1 : (chaikinOnce pts).length = 6 * n := by
    rw [chaikinOnce_length pts h6, hlen]
    omega
  have h2 : 6 ≤ (chaikinOnce pts).length := by omega
  have hch : chaikin_subdivide pts 2 = chaikinOnce (chaikinOnce pts) :=
    chaikin_two pts h6
  have h12 : (chaikin_subdivide pts 2).length = 12 * n := by
    rw [hch, chaikinOnce_length _ h2, h1]
    omega
  refine ⟨?_, by omega, by omega⟩
  unfold smooth_stroke
  rw [if_neg (smooth_valid_not_rejected pts (by omega) (by omega)),
    if_neg (by omega : ¬pts.length < 6)]
  have hq : 12 * n / 3 = 4 * n := by omega
  have hfit2 : 4 * n < 4294967296 := by
    norm_num at hfit
    exact hfit
  simp [serializeVal, h12, hq, Nat.mod_eq_of_lt hfit, Nat.mod_eq_of_lt hfit2]

/-- Witness for C1 at the two-sample input [0,0,0,1,1,1]. -/
theorem C1_growth_law_witness :
    smooth_stroke false [0, 0, 0, 1, 1, 1] =
        some ⟨4 * 2, chaikin_subdivide [0, 0, 0, 1, 1, 1] 2⟩ ∧
      (chaikin_subdivide [0, 0, 0, 1, 1, 1] 2).length = 3 * (4 * 2) ∧
      (chaikinOnce [0, 0, 0, 1, 1, 1]).length = 3 * (2 * 2) :=
  C1_growth_law [0, 0, 0, 1, 1, 1] 2 (by simp) (by norm_num) (by norm_num)

/-! Endpoint lemmas for one subdivision pass. -/

lemma drop_length_sub_three (A B : List ℚ) (hb : B.length = 3) :
    (A ++ B).drop ((A ++ B).length - 3) = B := by
  rw [List.length_append, hb]
  have he : A.length + 3 - 3 = A.length + 0 := by omega
  rw [he, List.drop_append]
  simp

lemma chaikinOnce_take3 (pts : List ℚ) (h : 3 ≤ pts.length) :
    (chaikinOnce pts).take 3 = pts.take 3 := by
  unfold chaikinOnce
  have hl : (pts.take 3).length = 3 := by
    rw [List.length_take]
    exact Nat.min_eq_left (by omega)
  rw [List.take_append_of_le_length (by rw [List.length_append, hl]; omega),
    List.take_append_of_le_length (by rw [hl])]
  simp [List.take_take]

lemma chaikinOnce_last3 (pts : List ℚ) (h : 3 ≤ pts.length) :
    (chaikinOnce pts).drop ((chaikinOnce pts).length - 3) =
      pts.drop (pts.length - 3) := by
  unfold chaikinOnce
  exact drop_length_sub_three _ _ (by rw [List.length_drop]; omega)

/-- C2: for every well-formed input of at least 2 samples, the payload
smooth_stroke serializes keeps the first and the last scalar triplet of the
input unchanged (the code copies those scalars verbatim, so equality here
is bit-for-bit equality of the f32 values in the code). -/
theorem C2_endpoint_preservation (pts : List ℚ) (h3 : pts.length % 3 = 0)
    (h6 : 6 ≤ pts.length) :
    ∃ buf, smooth_stroke false pts = some buf ∧
      buf.payload.take 3 = pts.take 3 ∧
      buf.payload.drop (buf.payload.length - 3) = pts.drop (pts.length - 3) := by
  have h2 := chaikinOnce_ge6 pts h6
  have hch := chaikin_two pts h6
  refine ⟨serializeVal (chaikin_subdivide pts 2), ?_, ?_, ?_⟩
  · unfold smooth_stroke
    rw [if_neg (smooth_valid_not_rejected pts h3 (by omega)),
      if_neg (by omega : ¬pts.length < 6)]
  · show (chaikin_subdivide pts 2).take 3 = pts.take 3
    rw [hch, chaikinOnce_take3 _ (by omega), chaikinOnce_take3 _ (by omega)]
  · show (chaikin_subdivide pts 2).drop ((chaikin_subdivide pts 2).length - 3) =
      pts.drop (pts.length - 3)
    rw [hch, chaikinOnce_last3 _ (by omega), chaikinOnce_last3 _ (by omega)]

/-- Witness for C2 at the two-sample input [0,0,0,1,1,1]. -/
theorem C2_endpoint_preservation_witness :
    ∃ buf, smooth_stroke false [0, 0, 0, 1, 1, 1] = some buf ∧
      buf.payload.take 3 = ([0, 0, 0, 1, 1, 1] : List ℚ).take 3 ∧
      buf.payload.drop (buf.payload.length - 3) =
        ([0, 0, 0, 1, 1, 1] : List ℚ).drop (([0, 0, 0, 1, 1, 1] : List ℚ).length - 3) :=
  C2_endpoint_preservation [0, 0, 0, 1, 1, 1] (by simp) (by simp)

/-- C3 counterexample: on the input [0,0,0, 10,0,1] one subdivision pass
does NOT produce the sequence [0,0,0, 7.5,0,0.25, 2.5,0,0.75, 10,0,1]
stated by the specification: the quarter point is
0.75*(0,0,0) + 0.25*(10,0,1) = (2.5, 0, 0.25), not (7.5, 0, 0.25), so the
two interior x coordinates are swapped relative to the spec. -/
theorem C3_counterexample :
    chaikin_subdivide [0, 0, 0, 10, 0, 1] 1 ≠
      [0, 0, 0, 7.5, 0, 0.25, 2.5, 0, 0.75, 10, 0, 1] := by
  norm_num [chaikin_subdivide, chaikinOnce, chaikinSegment, List.range_succ]

/-- C3 amended: one pass on [0,0,0, 10,0,1] yields
[0,0,0, 2.5,0,0.25, 7.5,0,0.75, 10,0,1] (4 samples), and a second pass on
that sequence yields 8 samples whose first sample is (0,0,0) and whose
last sample is (10,0,1). -/
theorem C3_concrete_scenario :
    chaikin_subdivide [0, 0, 0, 10, 0, 1] 1 =
        [0, 0, 0, 2.5, 0, 0.25, 7.5, 0, 0.75, 10, 0, 1] ∧
      (chaikin_subdivide [0, 0, 0, 2.5, 0, 0.25, 7.5, 0, 0.75, 10, 0, 1] 1).length = 24 ∧
      (chaikin_subdivide [0, 0, 0, 2.5, 0, 0.25, 7.5, 0, 0.75, 10, 0, 1] 1).take 3 =
        [0, 0, 0] ∧
      (chaikin_subdivide [0, 0, 0, 2.5, 0, 0.25, 7.5, 0, 0.75, 10, 0, 1] 1).drop 21 =
        [10, 0, 1] := by
  refine ⟨?_, ?_, ?_, ?_⟩
  all_goals norm_num [chaikin_subdivide, chaikinOnce, chaikinSegment, List.range_succ]

/-! Indexing lemmas locating the interpolated samples of one pass. -/

lemma flatMap_range_getD (f : ℕ → List ℚ) (h : ∀ i, (f i).length = 6) :
    ∀ k i j, i < k → j < 6 →
      ((List.range k).flatMap f).getD (6 * i + j) 0 = (f i).getD j 0 := by
  intro k
  induction k with
  | zero => intro i j hi _; omega
  | succ k ih =>
      intro i j hi hj
      rw [List.range_succ, List.flatMap_append]
      rcases Nat.lt_or_ge i k with hik | hik
      · rw [List.getD_append]
        · exact ih i j hik hj
        · rw [flatMap_range_length f h k]
          omega
      · have hik2 : i = k := by omega
        subst hik2
        rw [List.getD_append_right]
        · simp only [List.flatMap_cons, List.flatMap_nil, List.append_nil]
          rw [flatMap_range_length f h i]
          have hj2 : 6 * i + j - 6 * i = j := by omega
          rw [hj2]
        · rw [flatMap_range_length f h i]
          omega

lemma chaikinOnce_getD (pts : List ℚ) (h6 : 6 ≤ pts.length) (i j : ℕ)
    (hi : i < pts.length / 3 - 1) (hj : j < 6) :
    (chaikinOnce pts).getD (3 + (6 * i + j)) 0 =
      (chaikinSegment (pts.getD (i * 3) 0) (pts.getD (i * 3 + 1) 0)
        (pts.getD (i * 3 + 2) 0) (pts.getD ((i + 1) * 3) 0)
        (pts.getD ((i + 1) * 3 + 1) 0) (pts.getD ((i + 1) * 3 + 2) 0)).getD j 0 := by
  unfold chaikinOnce
  have hl : (pts.take 3).length = 3 := by
    rw [List.length_take]
    exact Nat.min_eq_left (by omega)
  rw [List.append_assoc, List.getD_append_right]
  · rw [hl]
    have hidx : 3 + (6 * i + j) - 3 = 6 * i + j := by omega
    rw [hidx, List.getD_append]
    · exact flatMap_range_getD _ (fun _ => chaikinSegment_length _ _ _ _ _ _) _ i j hi hj
    · rw [flatMap_range_length _ (fun _ => chaikinSegment_length _ _ _ _ _ _)]
      omega
  · rw [hl]
    omega

/-- C8: each pass of chaikin_subdivide emits, for segment i, the pressures
0.75*p0 + 0.25*p1 and 0.25*p0 + 0.75*p1 (no clamping or renormalization),
and both lie in the closed interval between the two original pressures of
that segment. -/
theorem C8_pressure_bounds (pts : List ℚ) (i : ℕ) (h6 : 6 ≤ pts.length)
    (hi : i < pts.length / 3 - 1) :
    (chaikinOnce pts).getD (3 + (6 * i + 2)) 0 =
        0.75 * pts.getD (i * 3 + 2) 0 + 0.25 * pts.getD ((i + 1) * 3 + 2) 0 ∧
      (chaikinOnce pts).getD (3 + (6 * i + 5)) 0 =
        0.25 * pts.getD (i * 3 + 2) 0 + 0.75 * pts.getD ((i + 1) * 3 + 2) 0 ∧
      min (pts.getD (i * 3 + 2) 0) (pts.getD ((i + 1) * 3 + 2) 0) ≤
        (chaikinOnce pts).getD (3 + (6 * i + 2)) 0 ∧
      (chaikinOnce pts).getD (3 + (6 * i + 2)) 0 ≤
        max (pts.getD (i * 3 + 2) 0) (pts.getD ((i + 1) * 3 + 2) 0) ∧
      min (pts.getD (i * 3 + 2) 0) (pts.getD ((i + 1) * 3 + 2) 0) ≤
        (chaikinOnce pts).getD (3 + (6 * i + 5)) 0 ∧
      (chaikinOnce pts).getD (3 + (6 * i + 5)) 0 ≤
        max (pts.getD (i * 3 + 2) 0) (pts.getD ((i + 1) * 3 + 2) 0) := by
  have g2 : ∀ x0 y0 q0 x1 y1 q1 : ℚ,
      (chaikinSegment x0 y0 q0 x1 y1 q1).getD 2 0 = 0.75 * q0 + 0.25 * q1 :=
    fun _ _ _ _ _ _ => rfl
  have g5 : ∀ x0 y0 q0 x1 y1 q1 : ℚ,
      (chaikinSegment x0 y0 q0 x1 y1 q1).getD 5 0 = 0.25 * q0 + 0.75 * q1 :=
    fun _ _ _ _ _ _ => rfl
  rw [chaikinOnce_getD pts h6 i 2 hi (by omega),
    chaikinOnce_getD pts h6 i 5 hi (by omega), g2, g5]
  rcases le_total (pts.getD (i * 3 + 2) 0) (pts.getD ((i + 1) * 3 + 2) 0) with hle | hle
  · rw [min_eq_left hle, max_eq_right hle]
    refine ⟨rfl, rfl, by linarith, by linarith, by linarith, by linarith⟩
  · rw [min_eq_right hle, max_eq_left hle]
    refine ⟨rfl, rfl, by linarith, by linarith, by linarith, by linarith⟩

/-- Witness for C8 at the two-sample input [0,0,0,10,0,1], segment 0. -/
theorem C8_pressure_bounds_witness :
    (chaikinOnce [0, 0, 0, 10, 0, 1]).getD (3 + (6 * 0 + 2)) 0 =
        0.75 * ([0, 0, 0, 10, 0, 1] : List ℚ).getD (0 * 3 + 2) 0 +
          0.25 * ([0, 0, 0, 10, 0, 1] : List ℚ).getD ((0 + 1) * 3 + 2) 0 ∧
      (chaikinOnce [0, 0, 0, 10, 0, 1]).getD (3 + (6 * 0 + 5)) 0 =
        0.25 * ([0, 0, 0, 10, 0, 1] : List ℚ).getD (0 * 3 + 2) 0 +
          0.75 * ([0, 0, 0, 10, 0, 1] : List ℚ).getD ((0 + 1) * 3 + 2) 0 ∧
      min (([0, 0, 0, 10, 0, 1] : List ℚ).getD (0 * 3 + 2) 0)
          (([0, 0, 0, 10, 0, 1] : List ℚ).getD ((0 + 1) * 3 + 2) 0) ≤
        (chaikinOnce [0, 0, 0, 10, 0, 1]).getD (3 + (6 * 0 + 2)) 0 ∧
      (chaikinOnce [0, 0, 0, 10, 0, 1]).getD (3 + (6 * 0 + 2)) 0 ≤
        max (([0, 0, 0, 10, 0, 1] : List ℚ).getD (0 * 3 + 2) 0)
          (([0, 0, 0, 10, 0, 1] : List ℚ).getD ((0 + 1) * 3 + 2) 0) ∧
      min (([0, 0, 0, 10, 0, 1] : List ℚ).getD (0 * 3 + 2) 0)
          (([0, 0, 0, 10, 0, 1] : List ℚ).getD ((0 + 1) * 3 + 2) 0) ≤
        (chaikinOnce [0, 0, 0, 10, 0, 1]).getD (3 + (6 * 0 + 5)) 0 ∧
      (chaikinOnce [0, 0, 0, 10, 0, 1]).getD (3 + (6 * 0 + 5)) 0 ≤
        max (([0, 0, 0, 10, 0, 1] : List ℚ).getD (0 * 3 + 2) 0)
          (([0, 0, 0, 10, 0, 1] : List ℚ).getD ((0 + 1) * 3 + 2) 0) :=
  C8_pressure_bounds [0, 0, 0, 10, 0, 1] 0 (by norm_num) (by norm_num)

/-! Byte-level wire-format lemmas. -/

lemma u32ToLeBytes_length (n : ℕ) : (u32ToLeBytes n).length = 4 := rfl

lemma flatMap_f32_length (points : List ℕ) :
    (points.flatMap f32ToLeBytes).length = 4 * points.length := by
  induction points with
  | nil => rfl
  | cons x xs ih =>
      rw [List.flatMap_cons, List.length_append, ih]
      simp [f32ToLeBytes, u32ToLeBytes, List.length_cons]
      omega

lemma decodeScalars_flatMap : ∀ points : List ℕ, (∀ x ∈ points, x < 2 ^ 32) →
    decodeScalars (points.flatMap f32ToLeBytes) = points := by
  intro points
  induction points with
  | nil => intro _; rfl
  | cons x xs ih =>
      intro h
      have hx : x < 4294967296 := by
        have := h x (by simp)
        norm_num at this
        exact this
      have hxs : ∀ y ∈ xs, y < 2 ^ 32 := fun y hy => h y (by simp [hy])
      rw [List.flatMap_cons]
      rw [show f32ToLeBytes x ++ xs.flatMap f32ToLeBytes =
            x % 256 :: (x / 256 % 256) :: (x / 65536 % 256) :: (x / 16777216 % 256) ::
              xs.flatMap f32ToLeBytes from rfl]
      simp only [decodeScalars]
      rw [ih hxs]
      congr 1
      omega

lemma leBytes_roundtrip (m : ℕ) (hm : m < 2 ^ 32) :
    leBytesToU32 (u32ToLeBytes m) = m := by
  have hm2 : m < 4294967296 := by
    norm_num at hm
    exact hm
  show m % 256 + 256 * (m / 256 % 256) + 65536 * (m / 65536 % 256)
      + 16777216 * (m / 16777216 % 256) = m
  omega

/-- C6: decoding the wire buffer built by serialize_points, by reading the
4-byte little-endian u32 count header and then the scalars 4 little-endian
bytes at a time, reproduces exactly the scalar sequence (and the sample
count) used to construct it. -/
theorem C6_roundtrip (points : List ℕ) (h : ∀ x ∈ points, x < 2 ^ 32) :
    decodeWire (serialize_points points) = (points.length / 3 % 2 ^ 32, points) := by
  unfold decodeWire serialize_points
  have hh : (u32ToLeBytes (points.length / 3 % 2 ^ 32)).length = 4 := rfl
  have htake : (u32ToLeBytes (points.length / 3 % 2 ^ 32)
        ++ points.flatMap f32ToLeBytes).take 4
      = u32ToLeBytes (points.length / 3 % 2 ^ 32) := by
    rw [List.take_append_of_le_length (u32ToLeBytes_length _).ge]
    exact List.take_of_length_le (u32ToLeBytes_length _).le
  have hdrop : (u32ToLeBytes (points.length / 3 % 2 ^ 32)
        ++ points.flatMap f32ToLeBytes).drop 4
      = points.flatMap f32ToLeBytes := by
    have h4 : (4 : ℕ) = (u32ToLeBytes (points.length / 3 % 2 ^ 32)).length + 0 := by
      rw [hh]
    rw [h4, List.drop_append]
    simp
  rw [htake, hdrop, leBytes_roundtrip _ (Nat.mod_lt _ (by norm_num)),
    decodeScalars_flatMap points h]

/-- Witness for C6 at the one-sample bit-pattern sequence [0, 1, 4294967295]. -/
theorem C6_roundtrip_witness :
    decodeWire (serialize_points [0, 1, 4294967295]) =
      (([0, 1, 4294967295] : List ℕ).length / 3 % 2 ^ 32, [0, 1, 4294967295]) :=
  C6_roundtrip [0, 1, 4294967295] (by decide)

/-- C7: the wire buffer built by serialize_points for a sample sequence
(scalar count a multiple of 3) is exactly 4 + 12 * sample_count bytes
long: the 4-byte header plus 12 bytes per sample. -/
theorem C7_buffer_length (points : List ℕ) (h3 : points.length % 3 = 0) :
    (serialize_points points).length = 4 + 12 * (points.length / 3) := by
  unfold serialize_points
  rw [List.length_append, flatMap_f32_length]
  have hh : (u32ToLeBytes (points.length / 3 % 2 ^ 32)).length = 4 := rfl
  rw [hh]
  omega

/-- Witness for C7 at the one-sample sequence [1, 2, 3]. -/
theorem C7_buffer_length_witness :
    (serialize_points [1, 2, 3]).length =
      4 + 12 * (([1, 2, 3] : List ℕ).length / 3) :=
  C7_buffer_length [1, 2, 3] (by decide)

/-- C10: alloc hands every requested size, zero included, to
Vec::with_capacity and returns its raw pointer, which is never the null
address: capacity 0 gives the dangling address 1 and positive capacities
give allocator addresses, which are never null. So alloc, unlike
smooth_stroke, has no null failure sentinel, and a zero-byte allocation is
not detectable by a null check. -/
theorem C10_alloc_never_null (allocAddr : ℕ → ℕ)
    (hna : ∀ n, 0 < n → allocAddr n ≠ 0) :
    alloc allocAddr 0 = 1 ∧ ∀ size, alloc allocAddr size ≠ 0 := by
  constructor
  · rfl
  · intro size
    unfold alloc vecWithCapacityPtr
    split_ifs with hs
    · exact one_ne_zero
    · exact hna size (by omega)

/-- Witness for C10 with a concrete allocator address map and size 0. -/
theorem C10_alloc_never_null_witness :
    alloc (fun _ => 8) 0 = 1 ∧ ∀ size, alloc (fun _ => 8) size ≠ 0 :=
  C10_alloc_never_null (fun _ => 8) (fun n _ => by norm_num)

end CreoVex
